import Mathlib

/-!
Shallow embedding of `src/main.rs` of pfz, an interactive fuzzy line selector,
together with proofs about its matcher, its incremental match maintenance, and
its selection/pagination logic.

Modelling conventions:
* Rust strings are `List Char`; `str::to_lowercase` is modelled per character
  with `Char.toLower`.
* `usize` values are `Nat`.  Where the source can underflow (`matches.len() -
  height - 1`, `offset -= height`), the wrap-around of release-mode Rust is
  made explicit with `wsub`; a debug build would panic at those same inputs.
* Fallible indexing (`get_selection`) returns `Option`, `none` standing for
  the Rust out-of-bounds panic.
* Terminal I/O, timing and the producer thread are abstracted: the main loop
  is a step function over the observable loop events (a received chunk, the
  end-of-stream marker, one key event, and the throttled recompute-and-render
  block firing).
-/

namespace Pfz

/-- Modulus of `usize` arithmetic (64-bit target). -/
def USIZE : Nat := 2 ^ 64

/-- Rust `usize` subtraction `a - b`: wraps modulo `2^64` on underflow
(release-mode semantics). -/
def wsub (a b : Nat) : Nat := (a + USIZE - b % USIZE) % USIZE

/-- Rust `char::is_ascii_whitespace`. -/
def isAsciiWhitespace (c : Char) : Bool :=
  c = ' ' || c = '\t' || c = '\n' || c = '\x0c' || c = '\r'

/-- Rust `str::to_lowercase`, modelled as per-character simple lowercasing. -/
def lowerStr (s : List Char) : List Char := s.map Char.toLower

/-- Rust `str::contains(pat)`: `needle` occurs as a contiguous substring of
`haystack`. -/
def strContains : List Char → List Char → Bool
  | [], needle => needle.isPrefixOf []
  | c :: t, needle => needle.isPrefixOf (c :: t) || strContains t needle

/-- Accumulator-style tokenizer behind `str::split_ascii_whitespace`; `acc`
holds the characters of the token in progress, reversed. -/
def splitAWAux : List Char → List Char → List (List Char)
  | [], acc => if acc.isEmpty then [] else [acc.reverse]
  | c :: rest, acc =>
    if isAsciiWhitespace c then
      if acc.isEmpty then splitAWAux rest [] else acc.reverse :: splitAWAux rest []
    else splitAWAux rest (c :: acc)

/-- Rust `str::split_ascii_whitespace`, collected to a list of tokens. -/
def splitAsciiWhitespace (s : List Char) : List (List Char) := splitAWAux s []

/-- `Query`: the raw query text plus its whitespace-separated terms. -/
structure Query where
  query_str : List Char
  query : List (List Char)
deriving DecidableEq

/-- `Query::new`. -/
def Query.new (query_str : List Char) : Query :=
  ⟨query_str, splitAsciiWhitespace query_str⟩

/-- `Query::is_match`: every term is a case-insensitive substring of `item`
(vacuously true for zero terms). -/
def Query.is_match (q : Query) (item : List Char) : Bool :=
  q.query.all fun t => strContains (lowerStr item) (lowerStr t)

/-- `MatchList`: viewport height, selection state, Match Set and Item List. -/
structure MatchList where
  height : Nat
  cursor : Nat
  offset : Nat
  «matches» : List Nat
  items : List (List Char)
deriving DecidableEq

/-- `MatchList::new`. -/
def MatchList.new (height : Nat) : MatchList :=
  ⟨height, 0, 0, [], []⟩

/-- `MatchList::get_selection`: `items[matches[cursor + offset]]`; `none`
models the Rust panic when either index is out of range. -/
def MatchList.get_selection (s : MatchList) : Option (List Char) :=
  s.matches[s.cursor + s.offset]?.bind fun m => s.items[m]?

/-- `MatchList::move_up_page`.  The cursor branch uses `saturating_sub` (plain
`Nat` subtraction); the offset branch is an unchecked `usize` subtraction. -/
def MatchList.move_up_page (s : MatchList) : MatchList :=
  if s.cursor > 0 then { s with cursor := s.cursor - s.height }
  else if s.offset > 0 then { s with offset := wsub s.offset s.height }
  else s

/-- `MatchList::move_down_page`. -/
def MatchList.move_down_page (s : MatchList) : MatchList :=
  if s.cursor < s.height then
    let c := s.cursor + s.height
    { s with cursor := if c > s.height then s.height else c }
  else if s.offset < wsub (wsub s.matches.length s.height) 1 then
    let o := s.offset + s.height
    { s with offset :=
        if o > wsub (wsub s.matches.length s.height) 1 then
          wsub (wsub s.matches.length s.height) 1
        else o }
  else s

/-- `MatchList::move_up`. -/
def MatchList.move_up (s : MatchList) : MatchList :=
  if s.cursor > 0 then { s with cursor := s.cursor - 1 }
  else if s.offset > 0 then { s with offset := s.offset - 1 }
  else s

/-- `MatchList::move_down`. -/
def MatchList.move_down (s : MatchList) : MatchList :=
  if s.cursor < s.height then { s with cursor := s.cursor + 1 }
  else if s.offset < wsub (wsub s.matches.length s.height) 1 then
    { s with offset := s.offset + 1 }
  else s

/-- `MatchList::adjust_cursor`. -/
def MatchList.adjust_cursor (s : MatchList) : MatchList :=
  if 0 < s.matches.length ∧ s.matches.length ≤ s.cursor then
    { s with cursor := s.matches.length - 1 }
  else s

/-- `MatchList::adjust_offset`. -/
def MatchList.adjust_offset (s : MatchList) : MatchList :=
  if s.offset > s.matches.length then { s with offset := 0 } else s

/-- The clamping prologue of `MatchList::render`: `adjust_cursor` then
`adjust_offset` (the drawing itself is terminal I/O and touches no state). -/
def render_adjust (ml : MatchList) : MatchList :=
  ml.adjust_cursor.adjust_offset

/-- `FuzzyMatcher::find_matches`.  The parallel iterators of the source are
order-preserving, so both branches are sequential filters here.  Rust indexes
`items[*i]`; an out-of-range index (never produced by the program, see
`incremental_equiv`) is modelled as matching nothing. -/
def find_matches (query : Query) (ml : MatchList)
    (reading_done query_remove : Bool) : List Nat :=
  if query.query.length = 0 then
    List.range ml.items.length
  else if reading_done = true ∧ query_remove = false ∧ 0 < ml.matches.length then
    ml.matches.filter fun i => query.is_match (ml.items.getD i [])
  else
    (List.range ml.items.length).filter fun i => query.is_match (ml.items.getD i [])

/-- The full (non-incremental) branch of `find_matches`: the previous Match
Set is not consulted. -/
def find_matches_full (query : Query) (items : List (List Char)) : List Nat :=
  if query.query.length = 0 then List.range items.length
  else (List.range items.length).filter fun i => query.is_match (items.getD i [])

/-- `HandleEventResult`. -/
inductive HandleEventResult
  | Done | NoMatch | Quit | Continue | QueryAdd | QueryRemove
deriving DecidableEq

/-- One key event as dispatched by `handle_event` (Ctrl-P/Ctrl-N behave
exactly as Up/Down and are folded into them). -/
inductive KeyInput
  | enter | ctrlC | up | down | pageUp | pageDown | char (c : Char) | backspace
deriving DecidableEq

/-- `FuzzyMatcher::handle_event`, restricted to the state it touches: the
updated query, the updated match list, and the result tag. -/
def handle_event (q : Query) (ml : MatchList) (k : KeyInput) :
    Query × MatchList × HandleEventResult :=
  match k with
  | .enter => (q, ml, if ml.matches.length = 0 then .NoMatch else .Done)
  | .ctrlC => (q, ml, .Quit)
  | .up => (q, ml.move_up, .Continue)
  | .down => (q, ml.move_down, .Continue)
  | .pageUp => (q, ml.move_up_page, .Continue)
  | .pageDown => (q, ml.move_down_page, .Continue)
  | .char c => (Query.new (q.query_str ++ [c]), ml, .QueryAdd)
  | .backspace =>
    if 0 < q.query_str.length then
      (Query.new q.query_str.dropLast, ml, .QueryRemove)
    else (q, ml, .Continue)

/-- The loop-local state of `FuzzyMatcher::main`: session data plus the four
mutable flags. -/
structure LoopState where
  query : Query
  ml : MatchList
  update_matches : Bool
  update_render : Bool
  reading_done : Bool
  query_remove : Bool
deriving DecidableEq

/-- The state on entry to the loop (`FuzzyMatcher::new` plus `main`'s local
flag initialisation). -/
def initState (height : Nat) : LoopState :=
  ⟨Query.new [], MatchList.new height, true, true, false, false⟩

/-- One observable event of the main loop: a producer chunk, the end-of-stream
marker, a key event (Enter/Ctrl-C end the session and are modelled by
`exit_behavior`), or the throttled recompute-and-render block firing. -/
inductive LoopEvent
  | chunk (xs : List (List Char))
  | eof
  | key (k : KeyInput)
  | renderTick
deriving DecidableEq

/-- One pass of the corresponding arm of `FuzzyMatcher::main`'s loop body. -/
def loop_step (s : LoopState) (e : LoopEvent) : LoopState :=
  match e with
  | .chunk xs =>
    if s.reading_done then s
    else { s with ml := { s.ml with items := s.ml.items ++ xs },
                  update_render := true, update_matches := true }
  | .eof => if s.reading_done then s else { s with reading_done := true }
  | .key k =>
    let r := handle_event s.query s.ml k
    match r.2.2 with
    | .QueryRemove =>
      { s with query := r.1, ml := r.2.1, query_remove := true, update_matches := true }
    | .QueryAdd => { s with query := r.1, ml := r.2.1, update_matches := true }
    | .Continue => { s with query := r.1, ml := r.2.1, update_render := true }
    | _ => s
  | .renderTick =>
    let ml1 := if s.update_matches then
        { s.ml with «matches» := find_matches s.query s.ml s.reading_done s.query_remove }
      else s.ml
    let ml2 := if s.update_render || s.update_matches then render_adjust ml1 else ml1
    { s with ml := ml2, update_matches := false, update_render := false }

/-- A whole sequence of loop events. -/
def run_events (s : LoopState) (es : List LoopEvent) : LoopState :=
  es.foldl loop_step s

/-- Process outcome: exit status plus the line printed to stdout (`none` when
nothing is printed); `panic` models a Rust index-out-of-bounds abort. -/
inductive ExitOutcome
  | exit (code : Nat) (printed : Option (List Char))
  | panic
deriving DecidableEq

/-- The exit arms of `FuzzyMatcher::main` for the session-ending
`handle_event` results: `Done` prints the selection and exits 0, `NoMatch`
exits 1, `Quit` exits 130; other results keep looping (`none`). -/
def exit_behavior (ml : MatchList) : HandleEventResult → Option ExitOutcome
  | .Done =>
    some (match ml.get_selection with
          | some item => .exit 0 (some item)
          | none => .panic)
  | .NoMatch => some (.exit 1 none)
  | .Quit => some (.exit 130 none)
  | _ => none

/-- One query edit, as in the claims about incremental matching. -/
inductive QEdit
  | ins (c : Char)
  | del
deriving DecidableEq

/-- The key event an edit arrives as. -/
def QEdit.toKey : QEdit → KeyInput
  | .ins c => .char c
  | .del => .backspace

/-- One query edit as the loop processes it: the key event followed by the
next recompute-and-render tick. -/
def apply_edit (s : LoopState) (e : QEdit) : LoopState :=
  loop_step (loop_step s (.key e.toKey)) .renderTick

/-- A sequence of query edits, left to right. -/
def apply_edits (s : LoopState) (es : List QEdit) : LoopState :=
  es.foldl apply_edit s

/-- Loop invariant: the stored query was built by `Query::new` from its own
raw text, and the published Match Set is its full recomputation over the
current Item List. -/
def Consistent (s : LoopState) : Prop :=
  s.query = Query.new s.query.query_str ∧
    s.ml.matches = find_matches_full s.query s.ml.items

/-- A reachable session state exhibiting the clamping gap: height 10, the
user has moved to cursor 10 / offset 4 over a long Match Set, and the Match
Set has just shrunk to five entries. -/
def badSelState : MatchList :=
  { height := 10, cursor := 10, offset := 4, «matches» := [0, 1, 2, 3, 4],
    items := [['a'], ['b'], ['c'], ['d'], ['e']] }

/-- A state whose Match Set (empty) is shorter than the viewport while the
cursor sits at the lower navigation bound. -/
def shortMatchState : MatchList :=
  { height := 10, cursor := 10, offset := 0, «matches» := [], items := [] }

/-- `badSelState` after the render-time clamping has already run: matches are
non-empty yet `cursor + offset = 8` overruns them. -/
def overrunState : MatchList :=
  { height := 10, cursor := 4, offset := 4, «matches» := [0, 1, 2, 3, 4],
    items := [['a'], ['b'], ['c'], ['d'], ['e']] }

/-- A well-formed selection state: confirming here selects item 1. -/
def okConfirmState : MatchList :=
  { height := 10, cursor := 0, offset := 0, «matches» := [1], items := [['x'], ['y']] }

/-- A consistent mid-session state: query "a" over three items, matches
already published, ingestion finished. -/
def exampleState : LoopState :=
  { query := Query.new ['a'],
    ml := { height := 10, cursor := 0, offset := 0, «matches» := [0, 2],
            items := [['a'], ['b'], ['a', 'b']] },
    update_matches := false, update_render := false,
    reading_done := true, query_remove := false }

/-- Three concrete edits: type "b", backspace, type "x". -/
def exampleEdits : List QEdit := [.ins 'b', .del, .ins 'x']

/-- A session state in which a backspace has already happened. -/
def stickyState : LoopState :=
  { query := Query.new ['a'], ml := MatchList.new 5,
    update_matches := false, update_render := false,
    reading_done := true, query_remove := true }

/-- A paging start state at the top of an eight-entry Match Set. -/
def pageState : MatchList :=
  { height := 3, cursor := 0, offset := 0, «matches» := [0, 1, 2, 3, 4, 5, 6, 7],
    items := [['a'], ['b'], ['c'], ['d'], ['e'], ['f'], ['g'], ['h']] }

/-- The two-chunk streaming scenario as the blocking drain loop actually
consumes it: "a1" arrives, a render fires, the user types "a", a render
fires, then "a2" and the end-of-stream marker arrive in the same drain pass
(the producer sends the sentinel right after its last chunk and `recv()`
blocks, so both are taken before the next render), then a render fires. -/
def scenarioEventsEof : List LoopEvent :=
  [.chunk [['a', '1']], .renderTick, .key (.char 'a'), .renderTick,
   .chunk [['a', '2']], .eof, .renderTick]

/-! ### Basic lemmas about the matching primitives -/

theorem strContains_iff (h n : List Char) :
    strContains h n = true ↔ n <:+: h := by
  induction h with
  | nil =>
    simp [strContains, List.isPrefixOf_iff_prefix, List.prefix_nil, List.infix_nil]
  | cons c t ih =>
    simp [strContains, ih, List.isPrefixOf_iff_prefix, List.infix_cons_iff]

theorem strContains_of_append (itm t ext : List Char)
    (h : strContains itm (t ++ ext) = true) : strContains itm t = true := by
  rw [strContains_iff] at h ⊢
  exact (List.prefix_append t ext).isInfix.trans h

theorem splitAWAux_append_ws (s : List Char) (c : Char) (acc : List Char)
    (hc : isAsciiWhitespace c = true) :
    splitAWAux (s ++ [c]) acc = splitAWAux s acc := by
  induction s generalizing acc with
  | nil =>
    by_cases ha : acc.isEmpty = true <;> simp [splitAWAux, hc, ha]
  | cons d s' ih =>
    by_cases hd : isAsciiWhitespace d = true
    · by_cases ha : acc.isEmpty = true <;> simp [splitAWAux, hd, ha, ih]
    · simp [splitAWAux, hd, ih]

theorem splitAWAux_append_char (s : List Char) (c : Char) (acc : List Char)
    (hc : isAsciiWhitespace c = false) :
    splitAWAux (s ++ [c]) acc = splitAWAux s acc ++ [[c]] ∨
      ∃ ts t, splitAWAux s acc = ts ++ [t] ∧
        splitAWAux (s ++ [c]) acc = ts ++ [t ++ [c]] := by
  induction s generalizing acc with
  | nil =>
    by_cases ha : acc.isEmpty = true
    · left
      have hn : acc = [] := by simpa using ha
      subst hn
      simp [splitAWAux, hc]
    · right
      refine ⟨[], acc.reverse, ?_, ?_⟩
      · simp [splitAWAux, ha]
      · simp [splitAWAux, hc, ha, List.reverse_cons]
  | cons d s' ih =>
    by_cases hd : isAsciiWhitespace d = true
    · by_cases ha : acc.isEmpty = true
      · rcases ih [] with h | ⟨ts, t, h1, h2⟩
        · left; simp [splitAWAux, hd, ha, h]
        · right
          exact ⟨ts, t, by simp [splitAWAux, hd, ha, h1],
            by simp [splitAWAux, hd, ha, h2]⟩
      · rcases ih [] with h | ⟨ts, t, h1, h2⟩
        · left; simp [splitAWAux, hd, ha, h]
        · right
          exact ⟨acc.reverse :: ts, t, by simp [splitAWAux, hd, ha, h1],
            by simp [splitAWAux, hd, ha, h2]⟩
    · rcases ih (d :: acc) with h | ⟨ts, t, h1, h2⟩
      · left; simp [splitAWAux, hd, h]
      · right
        exact ⟨ts, t, by simp [splitAWAux, hd, h1], by simp [splitAWAux, hd, h2]⟩

theorem is_match_append_char (s : List Char) (c : Char) (item : List Char)
    (h : (Query.new (s ++ [c])).is_match item = true) :
    (Query.new s).is_match item = true := by
  by_cases hc : isAsciiWhitespace c = true
  · have e := splitAWAux_append_ws s c [] hc
    simpa [Query.is_match, Query.new, splitAsciiWhitespace, e] using h
  · have hc' : isAsciiWhitespace c = false := by simpa using hc
    rcases splitAWAux_append_char s c [] hc' with e | ⟨ts, t, e1, e2⟩
    · simp only [Query.is_match, Query.new, splitAsciiWhitespace] at h ⊢
      rw [e, List.all_append, Bool.and_eq_true] at h
      exact h.1
    · simp only [Query.is_match, Query.new, splitAsciiWhitespace] at h ⊢
      rw [e2, List.all_append, Bool.and_eq_true] at h
      rw [e1, List.all_append, Bool.and_eq_true]
      refine ⟨h.1, ?_⟩
      have h2 := h.2
      simp only [List.all_cons, List.all_nil, Bool.and_true] at h2 ⊢
      simp only [lowerStr, List.map_append] at h2 ⊢
      exact strContains_of_append _ _ _ h2

/-! ### Lemmas about `find_matches` and the render-time clamping -/

theorem is_match_nil_query (q : Query) (hq : q.query = []) (item : List Char) :
    q.is_match item = true := by
  simp [Query.is_match, hq]

theorem find_matches_full_eq_filter (q : Query) (items : List (List Char)) :
    find_matches_full q items
      = (List.range items.length).filter fun i => q.is_match (items.getD i []) := by
  unfold find_matches_full
  by_cases hq : q.query.length = 0
  · have hq' : q.query = [] := List.length_eq_zero.1 hq
    rw [if_pos hq, List.filter_eq_self.2 fun a _ => is_match_nil_query q hq' _]
  · rw [if_neg hq]

theorem find_matches_query_remove (q : Query) (ml : MatchList) (rd : Bool) :
    find_matches q ml rd true = find_matches_full q ml.items := by
  unfold find_matches find_matches_full
  by_cases hq : q.query.length = 0 <;> simp [hq]

theorem full_filter_append_char (items : List (List Char)) (s : List Char) (c : Char) :
    (find_matches_full (Query.new s) items).filter
        (fun i => (Query.new (s ++ [c])).is_match (items.getD i []))
      = find_matches_full (Query.new (s ++ [c])) items := by
  rw [find_matches_full_eq_filter, find_matches_full_eq_filter, List.filter_filter]
  refine List.filter_congr fun i _ => ?_
  cases hp : (Query.new (s ++ [c])).is_match (items.getD i []) with
  | false => rw [Bool.false_and]
  | true => rw [Bool.true_and, is_match_append_char s c _ hp]

theorem full_filter_self (q : Query) (items : List (List Char)) :
    (find_matches_full q items).filter (fun i => q.is_match (items.getD i []))
      = find_matches_full q items := by
  rw [find_matches_full_eq_filter, List.filter_filter]
  refine List.filter_congr fun i _ => ?_
  cases hp : q.is_match (items.getD i []) <;> simp [hp]

theorem render_adjust_matches (ml : MatchList) :
    (render_adjust ml).matches = ml.matches := by
  unfold render_adjust MatchList.adjust_cursor MatchList.adjust_offset
  split <;> split <;> rfl

theorem render_adjust_items (ml : MatchList) :
    (render_adjust ml).items = ml.items := by
  unfold render_adjust MatchList.adjust_cursor MatchList.adjust_offset
  split <;> split <;> rfl

/-- Any recomputation whose previous Match Set already is the full result of
the same query leaves it at the full result, whichever branch is taken. -/
theorem find_matches_same_query (q : Query) (ml : MatchList) (rd qr : Bool)
    (h : ml.matches = find_matches_full q ml.items) :
    find_matches q ml rd qr = find_matches_full q ml.items := by
  unfold find_matches
  split_ifs with h1 h2
  · rw [find_matches_full, if_pos h1]
  · rw [h, full_filter_self]
  · rw [← find_matches_full_eq_filter]

/-- A one-character extension recomputed from a consistent previous Match Set
gives the full result of the extended query, whichever branch is taken. -/
theorem find_matches_step_insert (str : List Char) (c : Char) (ml : MatchList)
    (rd qr : Bool)
    (h : ml.matches = find_matches_full (Query.new str) ml.items) :
    find_matches (Query.new (str ++ [c])) ml rd qr
      = find_matches_full (Query.new (str ++ [c])) ml.items := by
  unfold find_matches
  split_ifs with h1 h2
  · rw [find_matches_full, if_pos h1]
  · rw [h, full_filter_append_char]
  · rw [← find_matches_full_eq_filter]

/-! ### The loop invariant for incremental matching -/

theorem consistent_apply_edit (s : LoopState) (e : QEdit) (h : Consistent s) :
    Consistent (apply_edit s e) := by
  obtain ⟨hwf, hm⟩ := h
  cases e with
  | ins c =>
    have key : apply_edit s (.ins c) =
        { s with
          query := Query.new (s.query.query_str ++ [c]),
          ml := render_adjust
            { s.ml with «matches» := find_matches (Query.new (s.query.query_str ++ [c])) s.ml s.reading_done s.query_remove },
          update_matches := false, update_render := false } := by
      simp [apply_edit, QEdit.toKey, loop_step, handle_event]
    rw [key]
    refine ⟨rfl, ?_⟩
    show (render_adjust _).matches = find_matches_full _ (render_adjust _).items
    rw [render_adjust_matches, render_adjust_items]
    exact find_matches_step_insert s.query.query_str c s.ml _ _ (hwf ▸ hm)
  | del =>
    by_cases hb : 0 < s.query.query_str.length
    · have key : apply_edit s .del =
          { s with
            query := Query.new s.query.query_str.dropLast,
            ml := render_adjust
              { s.ml with «matches» := find_matches (Query.new s.query.query_str.dropLast) s.ml s.reading_done true },
            update_matches := false, update_render := false,
            query_remove := true } := by
        simp [apply_edit, QEdit.toKey, loop_step, handle_event, hb]
      rw [key]
      refine ⟨rfl, ?_⟩
      show (render_adjust _).matches = find_matches_full _ (render_adjust _).items
      rw [render_adjust_matches, render_adjust_items]
      exact find_matches_query_remove _ s.ml _
    · by_cases hu : s.update_matches = true
      · have key : apply_edit s .del =
            { s with
              ml := render_adjust
                { s.ml with «matches» := find_matches s.query s.ml s.reading_done s.query_remove },
              update_matches := false, update_render := false } := by
          simp [apply_edit, QEdit.toKey, loop_step, handle_event, hb, hu]
        rw [key]
        refine ⟨hwf, ?_⟩
        show (render_adjust _).matches = find_matches_full _ (render_adjust _).items
        rw [render_adjust_matches, render_adjust_items]
        exact find_matches_same_query s.query s.ml _ _ hm
      · have key : apply_edit s .del =
            { s with ml := render_adjust s.ml, update_matches := false, update_render := false } := by
          simp [apply_edit, QEdit.toKey, loop_step, handle_event, hb, hu]
        rw [key]
        refine ⟨hwf, ?_⟩
        show (render_adjust _).matches = find_matches_full _ (render_adjust _).items
        rw [render_adjust_matches, render_adjust_items]
        exact hm

theorem consistent_apply_edits (s : LoopState) (es : List QEdit)
    (h : Consistent s) : Consistent (apply_edits s es) := by
  induction es generalizing s with
  | nil => exact h
  | cons e es ih =>
    rw [apply_edits, List.foldl_cons]
    exact ih _ (consistent_apply_edit s e h)

/-! ### The `query_remove` flag is sticky -/

theorem loop_step_query_remove (t : LoopState) (e : LoopEvent)
    (ht : t.query_remove = true) : (loop_step t e).query_remove = true := by
  cases e with
  | chunk xs => by_cases hr : t.reading_done <;> simp [loop_step, hr, ht]
  | eof => by_cases hr : t.reading_done <;> simp [loop_step, hr, ht]
  | key k =>
    cases hr : (handle_event t.query t.ml k).2.2 <;> simp [loop_step, hr, ht]
  | renderTick => simp [loop_step, ht]

theorem run_events_query_remove (s : LoopState) (es : List LoopEvent)
    (h : s.query_remove = true) : (run_events s es).query_remove = true := by
  induction es generalizing s with
  | nil => exact h
  | cons e es ih =>
    rw [run_events, List.foldl_cons]
    exact ih _ (loop_step_query_remove s e h)

/-! ### The claims -/

/-- C1: a full (non-incremental) match computation returns exactly the
indices `i` such that every ASCII-whitespace-separated term of the query is
a case-insensitive substring of `L[i]`, in ascending index order; a query
with zero terms matches every item, so the result is then all indices. -/
theorem full_match_correct (L : List (List Char)) (Q : List Char) :
    (∀ i, i ∈ find_matches_full (Query.new Q) L ↔
        i < L.length ∧ ∀ t ∈ (Query.new Q).query,
          lowerStr t <:+: lowerStr (L.getD i [])) ∧
    List.Sorted (· < ·) (find_matches_full (Query.new Q) L) ∧
    ((Query.new Q).query = [] →
      find_matches_full (Query.new Q) L = List.range L.length) := by
  refine ⟨?_, ?_, ?_⟩
  · intro i
    rw [find_matches_full_eq_filter, List.mem_filter, List.mem_range]
    constructor
    · rintro ⟨h1, h2⟩
      refine ⟨h1, fun t ht => ?_⟩
      rw [Query.is_match, List.all_eq_true] at h2
      exact (strContains_iff _ _).1 (h2 t ht)
    · rintro ⟨h1, h2⟩
      refine ⟨h1, ?_⟩
      rw [Query.is_match, List.all_eq_true]
      exact fun t ht => (strContains_iff _ _).2 (h2 t ht)
  · rw [find_matches_full_eq_filter]
    exact (List.sorted_lt_range L.length).sublist (List.filter_sublist _)
  · intro hq
    simp [find_matches_full, hq]

/-- Witness for `full_match_correct`: its zero-term clause at the query ""
over two items. -/
theorem full_match_correct_witness :
    find_matches_full (Query.new []) [['x'], ['y']] = List.range 2 :=
  (full_match_correct [['x'], ['y']] []).2.2 (by decide)

/-- C2: starting from any state whose Match Set is the full recomputation of
its (well-formed) query, every sequence of single-character edits — each
processed by `handle_event` and the next recompute tick, using the narrowing
fast path of `find_matches` when a character was added and no items arrive in
between — leaves the Match Set equal to the full recomputation of the current
query over the full item list, after every step. -/
theorem incremental_equiv (s : LoopState) (es : List QEdit)
    (hwf : s.query = Query.new s.query.query_str)
    (hm : s.ml.matches = find_matches_full s.query s.ml.items) :
    ∀ n, (apply_edits s (es.take n)).ml.matches
        = find_matches_full (apply_edits s (es.take n)).query
            (apply_edits s (es.take n)).ml.items :=
  fun n => (consistent_apply_edits s (es.take n) ⟨hwf, hm⟩).2

/-- Witness for `incremental_equiv`: query "a" over ["a","b","ab"], edits
"type b, backspace" — the fast path fires on the insert, the full rescan on
the delete, and both agree with the full recomputation. -/
theorem incremental_equiv_witness :
    (exampleState.query = Query.new exampleState.query.query_str) ∧
    (exampleState.ml.matches = find_matches_full exampleState.query exampleState.ml.items) ∧
    (apply_edits exampleState (exampleEdits.take 2)).ml.matches
      = find_matches_full (apply_edits exampleState (exampleEdits.take 2)).query
          (apply_edits exampleState (exampleEdits.take 2)).ml.items :=
  ⟨by decide, by decide, incremental_equiv exampleState exampleEdits (by decide) (by decide) 2⟩

/-- C3 (code bug): the claim says that after a Match Set replacement,
`adjust_cursor` followed by `adjust_offset` makes `cursor + offset` a valid
index whenever the Match Set is non-empty, and that `get_selection` never
indexes out of range.  The code violates this: in the reachable state
`badSelState` (cursor 10, offset 4, Match Set shrunk to 5 entries) the
adjustments leave `cursor + offset = 8 ≥ 5`, and `get_selection` indexes out
of range (a panic in the Rust source). -/
theorem clamping_unsafe :
    (render_adjust badSelState).matches.length = 5 ∧
    ¬ ((render_adjust badSelState).cursor + (render_adjust badSelState).offset
        < (render_adjust badSelState).matches.length) ∧
    (render_adjust badSelState).get_selection = none := by decide

/-- C4 (code bug): the claim says every navigation operation keeps `cursor`
in `[0, height)` and `offset` in `[0, max 0 (len - height - 1)]` with no
underflow.  The code violates both parts: with an empty Match Set and
`cursor = height` (reachable, since `move_down` never checks the Match Set
length), `matches.len() - height - 1` underflows `usize` and `move_down`
pushes `offset` to 1, outside the claimed range; and `move_down` from
`cursor = height - 1` reaches `cursor = height`, outside `[0, height)`. -/
theorem navigation_bounds_bug :
    (shortMatchState.move_down).offset = 1 ∧
    ¬ ((shortMatchState.move_down).offset
        ≤ max 0 (shortMatchState.matches.length - shortMatchState.height - 1)) ∧
    ({ shortMatchState with cursor := 9 } : MatchList).move_down.cursor
      = shortMatchState.height := by decide

/-- C5: appending a character to the query never grows the Match Set (the
full result of the extended query is a sublist of the original one, so every
item matching the extended query also matches the original), and removing a
character — recomputed with `query_remove` set, as the loop does — never
yields fewer matches than the full recomputation of the shorter query. -/
theorem query_monotone (items : List (List Char)) (s : List Char) (c : Char)
    (ml : MatchList) (rd : Bool) :
    (find_matches_full (Query.new (s ++ [c])) items).Sublist
        (find_matches_full (Query.new s) items) ∧
    (∀ i, i ∈ find_matches_full (Query.new (s ++ [c])) items →
        i ∈ find_matches_full (Query.new s) items) ∧
    (find_matches_full (Query.new (s ++ [c])) items).length
        ≤ (find_matches_full (Query.new s) items).length ∧
    (find_matches_full (Query.new s.dropLast) ml.items).length
        ≤ (find_matches (Query.new s.dropLast) ml rd true).length := by
  have hsub : (find_matches_full (Query.new (s ++ [c])) items).Sublist
      (find_matches_full (Query.new s) items) := by
    rw [find_matches_full_eq_filter, find_matches_full_eq_filter]
    exact List.monotone_filter_right _ fun i hi => is_match_append_char s c _ hi
  refine ⟨hsub, fun i hi => hsub.subset hi, hsub.length_le, ?_⟩
  rw [find_matches_query_remove]

/-- C6 counterexample: in the reachable post-clamping state `overrunState`
the Match Set is non-empty, yet confirming does not terminate with the
success status and a printed line — it aborts (index out of range), so the
claim as stated is false. -/
theorem confirm_not_always_success :
    overrunState.matches.length ≠ 0 ∧
    exit_behavior overrunState (handle_event (Query.new []) overrunState .enter).2.2
      = some .panic := by decide

/-- C6 (amended): on confirm, if the Match Set is non-empty, `cursor + offset`
is a valid Match Set index and Match Set entries index the Item List, the
program exits with status 0 printing exactly the selected record
`items[matches[cursor + offset]]`; on confirm with an empty Match Set it
exits with status 1 printing nothing; on explicit cancel it exits with the
distinct status 130 printing nothing. -/
theorem confirm_exit_behavior (q : Query) (ml : MatchList)
    (hsel : ml.cursor + ml.offset < ml.matches.length)
    (hval : ∀ m ∈ ml.matches, m < ml.items.length) :
    exit_behavior ml (handle_event q ml .enter).2.2
      = some (.exit 0 (some (ml.items.getD (ml.matches.getD (ml.cursor + ml.offset) 0) []))) ∧
    (∀ (q' : Query) (ml' : MatchList), ml'.matches.length = 0 →
      exit_behavior ml' (handle_event q' ml' .enter).2.2 = some (.exit 1 none)) ∧
    (∀ (q' : Query) (ml' : MatchList),
      exit_behavior ml' (handle_event q' ml' .ctrlC).2.2 = some (.exit 130 none)) := by
  refine ⟨?_, ?_, ?_⟩
  · have hne : ¬ ml.matches.length = 0 := by omega
    have h1 : ml.matches[ml.cursor + ml.offset]? = some ml.matches[ml.cursor + ml.offset] :=
      List.getElem?_eq_getElem hsel
    have hmem : ml.matches[ml.cursor + ml.offset] ∈ ml.matches := List.getElem_mem _
    have hmlt : ml.matches[ml.cursor + ml.offset] < ml.items.length := hval _ hmem
    have h2 : ml.items[ml.matches[ml.cursor + ml.offset]]?
        = some ml.items[ml.matches[ml.cursor + ml.offset]] :=
      List.getElem?_eq_getElem hmlt
    simp [handle_event, hne, exit_behavior, MatchList.get_selection, h1, h2,
      List.getD_eq_getElem?_getD]
  · intro q' ml' h0
    simp [handle_event, h0, exit_behavior]
  · intro q' ml'
    simp [handle_event, exit_behavior]

/-- Witness for `confirm_exit_behavior`: a two-item list with `matches = [1]`
and the selection at the top; confirming prints item 1 and exits 0. -/
theorem confirm_exit_behavior_witness :
    (okConfirmState.cursor + okConfirmState.offset < okConfirmState.matches.length) ∧
    exit_behavior okConfirmState (handle_event (Query.new []) okConfirmState .enter).2.2
      = some (.exit 0 (some (okConfirmState.items.getD
          (okConfirmState.matches.getD (okConfirmState.cursor + okConfirmState.offset) 0) []))) :=
  ⟨by decide,
    (confirm_exit_behavior (Query.new []) okConfirmState (by decide) (by decide)).1⟩

/-- C7 (code bug): the claim says newly appended items are always tested
against the full current query, so the a1/a2 scenario ends with both items in
the Match Set.  The code violates this on the realistic interleaving: the
drain loop's blocking `recv` consumes the last chunk and the end-of-stream
marker in the same pass, so the recomputation that follows runs with
`reading_done = true`, `query_remove = false` and a non-empty stale Match Set
and takes the narrowing fast path, filtering only the previous matches — the
published Match Set stays `[0]` even though the full recomputation of the
current query over the whole current item list is `[0, 1]`: item "a2" is
silently dropped. -/
theorem items_grew_eof_drops_new_item :
    (run_events (initState 10) scenarioEventsEof).ml.matches = [0] ∧
    find_matches_full (run_events (initState 10) scenarioEventsEof).query
        (run_events (initState 10) scenarioEventsEof).ml.items = [0, 1] := by
  decide

/-- C8: from the top position (cursor 0, offset 0), `move_down_page` followed
by `move_up_page` never leaves cursor or offset beyond their values from
before the page-down, for every Match Set and viewport height. -/
theorem paging_symmetry (ml : MatchList) (h0 : ml.cursor = 0) (h1 : ml.offset = 0) :
    ((ml.move_down_page).move_up_page).cursor ≤ ml.cursor ∧
    ((ml.move_down_page).move_up_page).offset ≤ ml.offset := by
  by_cases hh : 0 < ml.height
  · have key : (ml.move_down_page).move_up_page = { ml with cursor := 0 } := by
      unfold MatchList.move_down_page MatchList.move_up_page
      simp [h0, hh, Nat.not_lt.2 (le_refl ml.height)]
    rw [key, h0, h1]
    exact ⟨le_refl 0, le_refl 0⟩
  · have hz : ml.height = 0 := by omega
    unfold MatchList.move_down_page MatchList.move_up_page
    simp only [h0, h1, hz, Nat.add_zero, Nat.lt_irrefl, if_false, gt_iff_lt]
    split_ifs <;> simp_all

/-- Witness for `paging_symmetry`: height 3 over an eight-entry Match Set. -/
theorem paging_symmetry_witness :
    pageState.cursor = 0 ∧ pageState.offset = 0 ∧
    ((pageState.move_down_page).move_up_page).cursor ≤ pageState.cursor ∧
    ((pageState.move_down_page).move_up_page).offset ≤ pageState.offset :=
  ⟨rfl, rfl, (paging_symmetry pageState rfl rfl).1, (paging_symmetry pageState rfl rfl).2⟩

/-- C9: once a backspace has set `query_remove`, no later loop event ever
clears it, and every recomputation with `query_remove` set takes the
full-item-list scan path — the narrowing filter-the-previous-subset fast
path is never taken again for the rest of the session. -/
theorem query_remove_sticky (s : LoopState) (h : s.query_remove = true) :
    (∀ es : List LoopEvent, (run_events s es).query_remove = true) ∧
    (∀ (q : Query) (ml : MatchList) (rd : Bool),
      find_matches q ml rd true = find_matches_full q ml.items) :=
  ⟨fun es => run_events_query_remove s es h,
   fun q ml rd => find_matches_query_remove q ml rd⟩

/-- Witness for `query_remove_sticky`: after a backspace, typing "b" and a
render tick still leave the flag set. -/
theorem query_remove_sticky_witness :
    stickyState.query_remove = true ∧
    (run_events stickyState [.key (.char 'b'), .renderTick]).query_remove = true :=
  ⟨by decide,
    (query_remove_sticky stickyState (by decide)).1 [.key (.char 'b'), .renderTick]⟩

/-- C10: a Backspace received while the raw query text is empty leaves the
query, the Match Set and the selection state unchanged and triggers no match
recomputation — the loop only marks the view for redraw. -/
theorem backspace_on_empty_noop (s : LoopState) (h : s.query.query_str = []) :
    loop_step s (.key .backspace) = { s with update_render := true } := by
  have hlen : ¬ 0 < s.query.query_str.length := by simp [h]
  simp [loop_step, handle_event, hlen]

/-- Witness for `backspace_on_empty_noop`: the initial state. -/
theorem backspace_on_empty_noop_witness :
    (initState 5).query.query_str = [] ∧
    loop_step (initState 5) (.key .backspace) = { initState 5 with update_render := true } :=
  ⟨rfl, backspace_on_empty_noop (initState 5) rfl⟩

end Pfz
